import Mathlib

/-!
Verification of `bmsinterests.py` (BMS interest tracker).

The file shallowly embeds the pure core of the script:

* the history mapping (a Python `dict` from timestamp strings to integer
  counts) as an association list with the dict's first-match lookup and
  insert-at-end semantics;
* `get_last_interest` (value at the maximum key, Python `max` over strings,
  i.e. lexicographic by code points, which Lean's `String` order also is);
* the decision section of `run` (source lines 163-192): the unchanged-value
  guard, the timestamp-collision guard, and the append, together with the
  unconditional `data["last_updated"] = timestamp` at line 168 — exposed
  here as `apply_observation`, the spec's name for this pure part;
* `parse_interested` with its regex
  `(\d+(\.\d+)?)\s*K\+?\s*ARE\s*INTERESTED` spelled out as a scanner.
  For this particular pattern greedy maximal-munch matching is complete
  (every backtracking alternative that shortens a greedy piece fails
  immediately, see the comment on `matchAt`), so the scanner below is a
  faithful deterministic rendering of Python's backtracking search.
  Python's `float` path is modelled as IEEE-754 binary64 in exact
  integer arithmetic: the decimal literal and the multiplication by
  1000 each round to 53 significant bits (round to nearest, ties to
  even, subnormals and overflow to infinity included), and `round` is
  the half-to-even nearest integer of the double's exact value;
  character classes are modelled over their ASCII extent, which covers
  every input the claims mention;
* persistence (`load_json` / `save_json`) over a small JSON AST, with the
  file at the fixed path modelled by its observable state (missing,
  malformed, or holding a parsed document).
-/

/-- A history entry list: Python dict from timestamp string to count.
Insertion order is kept, keys are unique in any dict that Python can
actually build. -/
abbrev Hist := List (String × Int)

/-- Python `k in history`. -/
def containsKey (l : Hist) (k : String) : Bool :=
  l.any (fun p => p.1 == k)

/-- Python `history[k]` for a key that may be absent: first entry with the
key. -/
def lookupH (l : Hist) (k : String) : Option Int :=
  (l.find? (fun p => p.1 == k)).map (fun p => p.2)

/-- Python `history[k] = v`: update in place when the key exists, append
otherwise. -/
def dictInsert (l : Hist) (k : String) (v : Int) : Hist :=
  if containsKey l k then
    l.map (fun p => if p.1 == k then (k, v) else p)
  else
    l ++ [(k, v)]

/-- Python string `<`: lexicographic comparison of the code-point
sequences, a proper prefix being smaller. -/
def charsLt : List Char → List Char → Bool
  | [], [] => false
  | [], _ :: _ => true
  | _ :: _, [] => false
  | a :: as, b :: bs =>
    if a < b then true
    else if b < a then false
    else charsLt as bs

/-- Python string `<` on `String`. -/
def strLt (a b : String) : Bool :=
  charsLt a.data b.data

/-- Python `max(history.keys())` threaded left to right: a later key
replaces the current maximum only when strictly greater, as CPython's
`max` does. -/
def maxKeyAux (cur : String) : Hist → String
  | [] => cur
  | (k, _) :: rest => maxKeyAux (if strLt cur k then k else cur) rest

/-- `max(history.keys())` of a possibly empty dict. -/
def maxKey : Hist → Option String
  | [] => none
  | (k, _) :: rest => some (maxKeyAux k rest)

/-- `get_last_interest` (source lines 68-71): `None` on an empty history,
otherwise the value stored at the maximum key. -/
def get_last_interest (history : Hist) : Option Int :=
  match maxKey history with
  | none => none
  | some k => lookupH history k

/-- The persisted record: the five top-level keys of the event file.
`last_updated` is `none` for JSON `null`. -/
structure EventRecord where
  eventCode : String
  source : String
  timezone : String
  last_updated : Option String
  history : Hist
deriving DecidableEq, Repr

/-- Outcome of one decision, named as in the spec: the code prints
`[SKIP] ... Interest unchanged`, `[SKIP] ... Timestamp exists`, `[OK]`
respectively. -/
inductive Outcome where
  | UNCHANGED
  | TIMESTAMP_COLLISION
  | APPENDED
deriving DecidableEq, Repr

/-- The decision section of `run` (source lines 163-192), the spec's
`apply_observation`: `last_updated` is set to the incoming timestamp
unconditionally (line 168, "ALWAYS update last_updated"); then the
unchanged-value guard, the collision guard, and the append in that
order. -/
def apply_observation (data : EventRecord) (timestamp : String) (value : Int) :
    EventRecord × Outcome :=
  let last_value := get_last_interest data.history
  let data1 := { data with last_updated := some timestamp }
  if last_value = some value then
    (data1, Outcome.UNCHANGED)
  else if containsKey data.history timestamp then
    (data1, Outcome.TIMESTAMP_COLLISION)
  else
    ({ data1 with history := dictInsert data.history timestamp value },
     Outcome.APPENDED)

/-- Python regex `\s` over its ASCII extent: space, tab, newline, carriage
return, vertical tab, form feed. -/
def isPySpace (c : Char) : Bool :=
  c == ' ' || c == '\t' || c == '\n' || c == '\r' ||
  c == '\x0b' || c == '\x0c'

/-- `\s*`: drop the maximal run of whitespace. -/
def dropSpaces : List Char → List Char
  | [] => []
  | c :: cs => if isPySpace c then dropSpaces cs else c :: cs

/-- `\d+`-style scan: the maximal leading digit run and the remainder. -/
def spanDigits : List Char → List Char × List Char
  | [] => ([], [])
  | c :: cs =>
    if c.isDigit then
      let p := spanDigits cs
      (c :: p.1, p.2)
    else
      ([], c :: cs)

/-- Consume one expected literal character. -/
def expectChar (c : Char) : List Char → Option (List Char)
  | [] => none
  | x :: xs => if x == c then some xs else none

/-- Consume an expected literal character sequence. -/
def expectChars : List Char → List Char → Option (List Char)
  | [], cs => some cs
  | c :: s, cs => (expectChar c cs).bind (expectChars s)

/-- Group 1 of the pattern, `(\d+(\.\d+)?)`, continued after the integer
digits `ds`: the optional fraction `(\.\d+)?` is taken greedily when a
`.` followed by at least one digit is present; returns the full group
and the remainder. -/
def numGroup (ds rest : List Char) : List Char × List Char :=
  match rest with
  | [] => (ds, [])
  | c :: r2 =>
    if c = '.' then
      match spanDigits r2 with
      | ([], _) => (ds, c :: r2)
      | (fs, r3) => (ds ++ '.' :: fs, r3)
    else (ds, c :: r2)

/-- The tail of the pattern after group 1:
`\s*K\+?\s*ARE\s*INTERESTED`. -/
def tailMatch (r0 : List Char) : Bool :=
  match expectChar 'K' (dropSpaces r0) with
  | none => false
  | some r1 =>
    let r2 := match r1 with
      | '+' :: rr => rr
      | _ => r1
    match expectChars ['A', 'R', 'E'] (dropSpaces r2) with
    | none => false
    | some r3 =>
      match expectChars ['I', 'N', 'T', 'E', 'R', 'E', 'S', 'T', 'E', 'D']
          (dropSpaces r3) with
      | none => false
      | some _ => true

/-- One attempt of the regex `(\d+(\.\d+)?)\s*K\+?\s*ARE\s*INTERESTED`
anchored at the head of the input; returns group 1 on success.

Maximal-munch is complete for this pattern, so no backtracking is
modelled: shortening `\d+` (or the fraction's `\d+`) leaves a digit in
front, which neither `\.` nor `\s*K` nor `\s*A` can consume; dropping an
offered `(\.\d+)?` leaves a `.` in front of `\s*K`; shortening a `\s*`
leaves whitespace in front of a required letter; and skipping an offered
`\+?` leaves `+` in front of `\s*ARE`.  Every such alternative fails at
once, so the greedy parse succeeds exactly when Python's engine finds a
match at this position, with the same group 1. -/
def matchAt (cs : List Char) : Option (List Char) :=
  match spanDigits cs with
  | ([], _) => none
  | (ds, rest) =>
    let gr := numGroup ds rest
    if tailMatch gr.2 then some gr.1 else none

/-- `re.search`: try the anchored match at each position, leftmost
success wins (the pattern needs a leading digit, so it can never match
the empty tail). -/
def reSearch : List Char → Option (List Char)
  | [] => none
  | c :: cs =>
    match matchAt (c :: cs) with
    | some g => some g
    | none => reSearch cs

/-- Value of a digit run, most significant first. -/
def digitsVal (ds : List Char) : Nat :=
  ds.foldl (fun n c => 10 * n + (c.toNat - 48)) 0

/-- The decimal value denoted by a regex-group string `\d+(\.\d+)?`,
kept exact: the pair `(n, e)` denotes the rational `n / 10 ^ e`.  The
binary64 rounding that `float` applies to this literal is performed
separately by `floatOfFrac`. -/
def decScaled (g : List Char) : Nat × Nat :=
  match spanDigits g with
  | (ds, '.' :: fs) => (digitsVal ds * 10 ^ fs.length + digitsVal fs, fs.length)
  | (ds, _) => (digitsVal ds, 0)

/-- Round half to even of the nonnegative `num / den` (`den` positive),
in integer arithmetic: the significand rounding of IEEE-754 round to
nearest and the final rounding of Python `round` alike. -/
def roundHalfEven (num den : Nat) : Nat :=
  let q := num / den
  let r := num % den
  if 2 * r < den then q
  else if den < 2 * r then q + 1
  else if q % 2 = 0 then q else q + 1

/-- Number of binary digits of `n` (`⌊log₂ n⌋ + 1` for positive `n`),
written with fuel so that it evaluates inside the kernel. -/
def bitLenAux : Nat → Nat → Nat
  | 0, _ => 0
  | fuel + 1, n => if n = 0 then 0 else 1 + bitLenAux fuel (n / 2)

def bitLen (n : Nat) : Nat :=
  bitLenAux n n

/-- `⌊log₂ (A / B)⌋` for positive `A`, `B`: the bit-length difference
brackets the quotient within a factor of two, one comparison settles
which side. -/
def fracLog2 (A B : Nat) : ℤ :=
  let d : ℤ := (bitLen A : ℤ) - (bitLen B : ℤ)
  if B * 2 ^ d.toNat ≤ A * 2 ^ (-d).toNat then d else d - 1

/-- The nonnegative rational `A / B` rounded to the nearest IEEE-754
binary64 value (round to nearest, ties to even): `some (s, t)` is the
finite double of exact value `s * 2 ^ t` (`t = max (e - 52) (-1074)`
covers normals and subnormals), `none` is overflow to infinity — a
result that, with unbounded exponent, would reach `2 ^ 1024`. -/
def floatOfFrac (A B : Nat) : Option (Nat × ℤ) :=
  if A = 0 then some (0, 0)
  else
    let e := fracLog2 A B
    let t : ℤ := max (e - 52) (-1074)
    let s := roundHalfEven (A * 2 ^ (-t).toNat) (B * 2 ^ t.toNat)
    if 1024 ≤ t ∨ 2 ^ (1024 - t).toNat ≤ s then none
    else some (s, t)

/-- `int(round(float(<literal N / 10 ^ k>) * 1000))` in IEEE-754
binary64: the decimal literal is rounded to the nearest double, the
multiplication by 1000 rounds its exact product again, and Python
`round` takes the half-to-even nearest integer of the exact value of
the resulting double.  `none` models the `OverflowError` that `round`
raises when the product is infinite. -/
def pyNum (N k : Nat) : Option ℤ :=
  match floatOfFrac N (10 ^ k) with
  | none => none
  | some (s, t) =>
    match floatOfFrac (s * 1000 * 2 ^ t.toNat) (2 ^ (-t).toNat) with
    | none => none
    | some (s2, t2) =>
      some ((roundHalfEven (s2 * 2 ^ t2.toNat) (2 ^ (-t2).toNat) : Nat) : ℤ)

/-- `text.replace(",", "").upper()`: strip commas, uppercase
(`str.upper` over its ASCII extent). -/
def preprocess (l : List Char) : List Char :=
  (l.filter (fun c => c != ',')).map Char.toUpper

/-- `parse_interested` (source lines 54-65): strip commas, uppercase,
search for `(\d+(\.\d+)?)\s*K\+?\s*ARE\s*INTERESTED`, and return
`int(round(float(group1) * 1000))` computed in binary64; `none` models
a raise — `ValueError("Interested pattern not found")` when the search
fails, `OverflowError` when the float product is infinite. -/
def parse_interested (text : String) : Option ℤ :=
  (reSearch (preprocess text.data)).bind (fun g =>
    let p := decScaled g
    pyNum p.1 p.2)

/-- JSON documents, as far as the event file uses them. -/
inductive Json where
  | null
  | str (s : String)
  | num (n : Int)
  | obj (kvs : List (String × Json))

/-- The observable state of the file at the event path: missing,
unreadable or malformed (any state in which `open`/`json.load` raises),
or holding a parsed document. -/
inductive FileState where
  | missing
  | malformed
  | valid (j : Json)

/-- `load_json` (source lines 39-46): return the parsed document when
the file exists and parses, the caller-supplied default otherwise; the
`except Exception: pass` makes it total. -/
def load_json (fs : FileState) (default : Json) : Json :=
  match fs with
  | FileState.valid j => j
  | _ => default

/-- `save_json` (source lines 49-51): overwrite the file with the
serialized document (`json.dump`; serialize-then-parse is the identity
on documents whose objects have unique keys, which every Python dict
has). -/
def save_json (j : Json) : FileState :=
  FileState.valid j

/-- The default record `run` passes to `load_json`
(source lines 155-161). -/
def runDefault : Json :=
  Json.obj
    [("eventCode", Json.str "ET00311251"),
     ("source", Json.str "BookMyShow"),
     ("timezone", Json.str "Asia/Kolkata"),
     ("last_updated", Json.null),
     ("history", Json.obj [])]

/-- Python `d.get(k)` on a JSON object's key list: first entry wins. -/
def jLookup (kvs : List (String × Json)) (k : String) : Option Json :=
  (kvs.find? (fun p => p.1 == k)).map (fun p => p.2)

/-- Modelled from the spec: the persisted file format contract (§6) read
back into a typed record — the script itself never validates the loaded
document, it accesses the dict fields directly, so the reading direction
of the round-trip claim is taken from the spec's format contract.
A history object decodes when every value is an integer. -/
def decodeHistory : List (String × Json) → Option Hist
  | [] => some []
  | (k, Json.num n) :: rest => (decodeHistory rest).map (fun h => (k, n) :: h)
  | _ => none

/-- Modelled from the spec: the file format contract (§6) — top-level
keys `eventCode`, `source`, `timezone` (strings), `last_updated`
(timestamp string or null), `history` (object with integer values). -/
def decodeRecord (j : Json) : Option EventRecord :=
  match j with
  | Json.obj kvs =>
    match jLookup kvs "eventCode", jLookup kvs "source",
        jLookup kvs "timezone", jLookup kvs "last_updated",
        jLookup kvs "history" with
    | some (Json.str e), some (Json.str s), some (Json.str tz),
        some lu, some (Json.obj h) =>
      match lu, decodeHistory h with
      | Json.null, some hist => some ⟨e, s, tz, none, hist⟩
      | Json.str t, some hist => some ⟨e, s, tz, some t, hist⟩
      | _, _ => none
    | _, _, _, _, _ => none
  | _ => none

/-- The document `run` persists for a record: the five top-level keys in
the order the script's dict carries them. -/
def encodeRecord (r : EventRecord) : Json :=
  Json.obj
    [("eventCode", Json.str r.eventCode),
     ("source", Json.str r.source),
     ("timezone", Json.str r.timezone),
     ("last_updated",
       match r.last_updated with
       | none => Json.null
       | some t => Json.str t),
     ("history", Json.obj (r.history.map (fun p => (p.1, Json.num p.2))))]

/-- The ASCII decimal digit characters. -/
def digitChars : List Char :=
  ['0', '1', '2', '3', '4', '5', '6', '7', '8', '9']

/-! ## Dictionary lemmas -/

theorem lookupH_eq_none_of_not_contains (l : Hist) (k : String)
    (h : containsKey l k = false) : lookupH l k = none := by
  unfold containsKey at h
  unfold lookupH
  rw [List.find?_eq_none.mpr]
  · rfl
  · intro x hx
    simp only [List.any_eq_false] at h
    exact fun hb => h x hx hb

theorem dictInsert_of_not_contains (l : Hist) (k : String) (v : Int)
    (h : containsKey l k = false) : dictInsert l k v = l ++ [(k, v)] := by
  unfold dictInsert
  rw [h]
  simp

theorem containsKey_append_self (l : Hist) (k : String) (v : Int) :
    containsKey (l ++ [(k, v)]) k = true := by
  unfold containsKey
  simp [List.any_append]

theorem lookupH_append_single_ne (l : Hist) (k t : String) (v : Int)
    (h : k ≠ t) : lookupH (l ++ [(t, v)]) k = lookupH l k := by
  have hne : (t == k) = false := beq_eq_false_iff_ne.mpr (fun hc => h hc.symm)
  unfold lookupH
  rw [List.find?_append]
  have hnone : List.find? (fun p => p.1 == k) [(t, v)] = none := by
    simp [List.find?, hne]
  rw [hnone]
  cases List.find? (fun p => p.1 == k) l <;> rfl

theorem lookupH_append_single_self (l : Hist) (t : String) (v : Int)
    (h : containsKey l t = false) : lookupH (l ++ [(t, v)]) t = some v := by
  have hnone : List.find? (fun p => p.1 == t) l = none := by
    rw [List.find?_eq_none]
    intro x hx
    unfold containsKey at h
    simp only [List.any_eq_false] at h
    exact fun hb => h x hx hb
  unfold lookupH
  rw [List.find?_append, hnone]
  simp [List.find?]

/-! ## Claims about the decision procedure -/

/-- C2: if a record's latest value (the value at the maximum history
key) is `V`, then applying observation `(t, V)` for any `t` returns
outcome `UNCHANGED` and leaves the history mapping exactly as it was. -/
theorem monotonic_skip (r : EventRecord) (t : String) (V : Int)
    (h : get_last_interest r.history = some V) :
    (apply_observation r t V).2 = Outcome.UNCHANGED ∧
    (apply_observation r t V).1.history = r.history := by
  unfold apply_observation
  simp [h]

/-- C2 witness: latest value of `{A ↦ 5, B ↦ 7}` is `7`; observing
`(C, 7)` is `UNCHANGED` and keeps the history. -/
theorem monotonic_skip_witness :
    get_last_interest [("A", 5), ("B", 7)] = some 7 ∧
    ((apply_observation ⟨"E", "S", "Z", none, [("A", 5), ("B", 7)]⟩ "C" 7).2 =
        Outcome.UNCHANGED ∧
     (apply_observation ⟨"E", "S", "Z", none, [("A", 5), ("B", 7)]⟩ "C" 7).1.history =
        [("A", 5), ("B", 7)]) :=
  ⟨by decide,
   monotonic_skip ⟨"E", "S", "Z", none, [("A", 5), ("B", 7)]⟩ "C" 7 (by decide)⟩

/-- C3: if the history already contains key `t`, then observing
`(t, v)` leaves the entry at `t` unmodified whatever `v` is, and when
`v` differs from the latest value the outcome is
`TIMESTAMP_COLLISION`. -/
theorem collision_skip (r : EventRecord) (t : String) (v : Int)
    (h : containsKey r.history t = true) :
    lookupH (apply_observation r t v).1.history t = lookupH r.history t ∧
    (get_last_interest r.history ≠ some v →
      (apply_observation r t v).2 = Outcome.TIMESTAMP_COLLISION) := by
  unfold apply_observation
  by_cases h1 : get_last_interest r.history = some v
  · simp [h1]
  · simp [h1, h]

/-- C3 witness: `{A ↦ 5, B ↦ 7}` contains key `A`; observing `(A, 9)`
keeps `A ↦ 5` and collides. -/
theorem collision_skip_witness :
    containsKey [("A", 5), ("B", 7)] "A" = true ∧
    (lookupH (apply_observation ⟨"E", "S", "Z", none, [("A", 5), ("B", 7)]⟩ "A" 9).1.history "A" =
        lookupH [("A", 5), ("B", 7)] "A" ∧
     (get_last_interest [("A", 5), ("B", 7)] ≠ some 9 →
       (apply_observation ⟨"E", "S", "Z", none, [("A", 5), ("B", 7)]⟩ "A" 9).2 =
         Outcome.TIMESTAMP_COLLISION)) :=
  ⟨by decide,
   collision_skip ⟨"E", "S", "Z", none, [("A", 5), ("B", 7)]⟩ "A" 9 (by decide)⟩

/-- C4: the decision procedure never mutates or deletes an existing
history entry — every key maps to the same value afterwards, unless it
was absent and is the observed timestamp — and at most one entry is
added. -/
theorem append_mostly (r : EventRecord) (t : String) (v : Int) :
    (apply_observation r t v).1.history.length ≤ r.history.length + 1 ∧
    ∀ k, lookupH (apply_observation r t v).1.history k = lookupH r.history k ∨
      (lookupH r.history k = none ∧ k = t) := by
  unfold apply_observation
  by_cases h1 : get_last_interest r.history = some v
  · simp [h1]
  · by_cases h2 : containsKey r.history t = true
    · simp [h1, h2]
    · rw [Bool.not_eq_true] at h2
      simp only [h1, h2, if_false, Bool.false_eq_true]
      rw [dictInsert_of_not_contains r.history t v h2]
      refine ⟨by simp, fun k => ?_⟩
      by_cases hk : k = t
      · subst hk
        exact Or.inr ⟨lookupH_eq_none_of_not_contains r.history k h2, rfl⟩
      · exact Or.inl (by simpa using lookupH_append_single_ne r.history k t v hk)

/-- C1: applying the same observation `(t, v)` to the record produced by
a first application yields `UNCHANGED` or `TIMESTAMP_COLLISION`, never a
second append, and the number of history entries is unchanged. -/
theorem apply_observation_idempotent (r : EventRecord) (t : String) (v : Int) :
    ((apply_observation (apply_observation r t v).1 t v).2 = Outcome.UNCHANGED ∨
     (apply_observation (apply_observation r t v).1 t v).2 = Outcome.TIMESTAMP_COLLISION) ∧
    (apply_observation (apply_observation r t v).1 t v).1.history.length =
      (apply_observation r t v).1.history.length := by
  unfold apply_observation
  by_cases h1 : get_last_interest r.history = some v
  · simp [h1]
  · by_cases h2 : containsKey r.history t = true
    · simp [h1, h2]
    · rw [Bool.not_eq_true] at h2
      simp only [h1, h2, if_false, Bool.false_eq_true]
      rw [dictInsert_of_not_contains r.history t v h2]
      by_cases h3 : get_last_interest (r.history ++ [(t, v)]) = some v
      · simp [h3]
      · simp [h3, containsKey_append_self]

/-- C5 counterexample: the code sets `last_updated` on every run
(source line 168), so on an `UNCHANGED` outcome `last_updated` moves to
the incoming timestamp instead of staying put, contradicting the
"advances only on append" policy the claim states. -/
theorem last_updated_unchanged_cex :
    (apply_observation ⟨"E", "S", "Z", some "A", [("A", 1)]⟩ "B" 1).2 =
      Outcome.UNCHANGED ∧
    (apply_observation ⟨"E", "S", "Z", some "A", [("A", 1)]⟩ "B" 1).1.last_updated ≠
      some "A" := by
  decide

/-- C5 amended: `last_updated` is set to the observation timestamp on
every invocation, whatever the outcome (variant A of the spec's §9 fork:
"advances on every run"). -/
theorem last_updated_always_advances (r : EventRecord) (t : String) (v : Int) :
    (apply_observation r t v).1.last_updated = some t := by
  unfold apply_observation
  by_cases h1 : get_last_interest r.history = some v
  · simp [h1]
  · by_cases h2 : containsKey r.history t = true
    · simp [h1, h2]
    · simp [h1, h2]

/-- C10: when the latest value differs from `v` and `t` is a fresh
timestamp, the observation is appended — even if `v` already occurs at
an earlier, non-latest key — so history values need not be distinct. -/
theorem change_detection_latest_only (r : EventRecord) (t : String) (v : Int)
    (h1 : get_last_interest r.history ≠ some v)
    (h2 : containsKey r.history t = false) :
    (apply_observation r t v).2 = Outcome.APPENDED ∧
    (apply_observation r t v).1.history = r.history ++ [(t, v)] := by
  unfold apply_observation
  rw [if_neg h1, if_neg (by simp [h2])]
  rw [dictInsert_of_not_contains r.history t v h2]
  exact ⟨rfl, rfl⟩

/-- C10 witness: in `{A ↦ 5, B ↦ 7}` the latest value is `7`; observing
`(C, 5)` appends even though `5` already sits at the older key `A`, so
the value `5` is then recorded twice. -/
theorem change_detection_latest_only_witness :
    get_last_interest [("A", 5), ("B", 7)] ≠ some 5 ∧
    containsKey [("A", 5), ("B", 7)] "C" = false ∧
    ((apply_observation ⟨"E", "S", "Z", none, [("A", 5), ("B", 7)]⟩ "C" 5).2 =
        Outcome.APPENDED ∧
     (apply_observation ⟨"E", "S", "Z", none, [("A", 5), ("B", 7)]⟩ "C" 5).1.history =
        [("A", 5), ("B", 7)] ++ [("C", 5)]) :=
  ⟨by decide, by decide,
   change_detection_latest_only ⟨"E", "S", "Z", none, [("A", 5), ("B", 7)]⟩ "C" 5
     (by decide) (by decide)⟩

/-! ## Claims about persistence -/

/-- C8: when the file is missing or its content malformed (any state in
which reading raises), `load_json` returns the freshly initialized
default record that `run` supplies: identifiers set, `last_updated`
null, empty history. -/
theorem load_recovers (fs : FileState)
    (h : ∀ j, fs ≠ FileState.valid j) :
    load_json fs runDefault = runDefault ∧
    decodeRecord runDefault =
      some ⟨"ET00311251", "BookMyShow", "Asia/Kolkata", none, []⟩ := by
  cases fs with
  | missing => exact ⟨rfl, by decide⟩
  | malformed => exact ⟨rfl, by decide⟩
  | valid j => exact absurd rfl (h j)

/-- C8 witness: a malformed file loads as the initialized empty
record. -/
theorem load_recovers_witness :
    load_json FileState.malformed runDefault = runDefault ∧
    decodeRecord runDefault =
      some ⟨"ET00311251", "BookMyShow", "Asia/Kolkata", none, []⟩ :=
  load_recovers FileState.malformed (fun _ h => FileState.noConfusion h)

theorem decodeHistory_encode (h : Hist) :
    decodeHistory (h.map (fun p => (p.1, Json.num p.2))) = some h := by
  induction h with
  | nil => rfl
  | cons p rest ih =>
    cases p with
    | mk k n => simp [decodeHistory, ih]

theorem decodeRecord_encodeRecord (r : EventRecord) :
    decodeRecord (encodeRecord r) = some r := by
  cases r with
  | mk e s tz lu h =>
    cases lu <;>
      simp [encodeRecord, decodeRecord, jLookup, List.find?, decodeHistory_encode]

/-- C9: a well-formed persisted document (one that reads back as a
record `r`) survives the load→save→reload cycle with identical semantic
content: the reloaded document still reads back as exactly `r` — same
`eventCode`, `source`, `timezone`, `last_updated`, and the same history
keys with the same values. -/
theorem save_load_round_trip (j : Json) (r : EventRecord)
    (h : decodeRecord j = some r) :
    decodeRecord (load_json (save_json (load_json (FileState.valid j) runDefault))
        runDefault) = some r ∧
    decodeRecord (encodeRecord r) = some r := by
  exact ⟨h, decodeRecord_encodeRecord r⟩

/-- C9 witness: a document with the top-level keys in a different order
than the serializer writes them still decodes, and its content survives
the round trip. -/
theorem save_load_round_trip_witness :
    decodeRecord (Json.obj
        [("history", Json.obj [("A", Json.num 5)]),
         ("timezone", Json.str "Asia/Kolkata"),
         ("eventCode", Json.str "ET00311251"),
         ("source", Json.str "BookMyShow"),
         ("last_updated", Json.str "A")]) =
      some ⟨"ET00311251", "BookMyShow", "Asia/Kolkata", some "A", [("A", 5)]⟩ ∧
    (decodeRecord (load_json (save_json (load_json
          (FileState.valid (Json.obj
            [("history", Json.obj [("A", Json.num 5)]),
             ("timezone", Json.str "Asia/Kolkata"),
             ("eventCode", Json.str "ET00311251"),
             ("source", Json.str "BookMyShow"),
             ("last_updated", Json.str "A")])) runDefault)) runDefault) =
        some ⟨"ET00311251", "BookMyShow", "Asia/Kolkata", some "A", [("A", 5)]⟩ ∧
     decodeRecord (encodeRecord
          ⟨"ET00311251", "BookMyShow", "Asia/Kolkata", some "A", [("A", 5)]⟩) =
        some ⟨"ET00311251", "BookMyShow", "Asia/Kolkata", some "A", [("A", 5)]⟩) :=
  ⟨by decide,
   save_load_round_trip
     (Json.obj
        [("history", Json.obj [("A", Json.num 5)]),
         ("timezone", Json.str "Asia/Kolkata"),
         ("eventCode", Json.str "ET00311251"),
         ("source", Json.str "BookMyShow"),
         ("last_updated", Json.str "A")])
     ⟨"ET00311251", "BookMyShow", "Asia/Kolkata", some "A", [("A", 5)]⟩
     (by decide)⟩

/-! ## Parser lemmas -/


theorem digit_char_isDigit {c : Char} (h : c ∈ digitChars) :
    c.isDigit = true := by
  fin_cases h <;> decide

theorem digit_char_toUpper {c : Char} (h : c ∈ digitChars) :
    c.toUpper = c := by
  fin_cases h <;> decide

theorem digit_char_ne_comma {c : Char} (h : c ∈ digitChars) :
    (c != ',') = true := by
  fin_cases h <;> decide

theorem spanDigits_append (ds : List Char) (c : Char) (rest : List Char)
    (hds : ∀ x ∈ ds, x.isDigit = true) (hc : c.isDigit = false) :
    spanDigits (ds ++ c :: rest) = (ds, c :: rest) := by
  induction ds with
  | nil => simp [spanDigits, hc]
  | cons d ds' ih =>
    have hd : d.isDigit = true := hds d (by simp)
    have ih' : spanDigits (ds' ++ c :: rest) = (ds', c :: rest) :=
      ih (fun x hx => hds x (by simp [hx]))
    simp [spanDigits, hd, ih']

theorem spanDigits_all (ds : List Char)
    (hds : ∀ x ∈ ds, x.isDigit = true) :
    spanDigits ds = (ds, []) := by
  induction ds with
  | nil => rfl
  | cons d ds' ih =>
    have hd : d.isDigit = true := hds d (by simp)
    have ih' : spanDigits ds' = (ds', []) :=
      ih (fun x hx => hds x (by simp [hx]))
    simp [spanDigits, hd, ih']

theorem preprocess_append (a b : List Char) :
    preprocess (a ++ b) = preprocess a ++ preprocess b := by
  simp [preprocess]

theorem preprocess_digits (ds : List Char)
    (h : ∀ c ∈ ds, c ∈ digitChars) :
    preprocess ds = ds := by
  induction ds with
  | nil => rfl
  | cons d ds' ih =>
    have h1 := digit_char_ne_comma (h d (by simp))
    have h2 := digit_char_toUpper (h d (by simp))
    have ih' : preprocess ds' = ds' := ih (fun c hc => h c (by simp [hc]))
    unfold preprocess at ih' ⊢
    simp [List.filter_cons, h1, h2, ih']

theorem mem_of_mem_dropSpaces (cs : List Char) (x : Char)
    (h : x ∈ dropSpaces cs) : x ∈ cs := by
  induction cs with
  | nil => simp [dropSpaces] at h
  | cons c cs' ih =>
    by_cases hc : isPySpace c = true
    · rw [show dropSpaces (c :: cs') = dropSpaces cs' from by
        simp [dropSpaces, hc]] at h
      exact List.mem_cons_of_mem _ (ih h)
    · rw [show dropSpaces (c :: cs') = c :: cs' from by
        simp [dropSpaces, hc]] at h
      exact h

theorem mem_of_mem_spanDigits_snd (cs : List Char) (x : Char)
    (h : x ∈ (spanDigits cs).2) : x ∈ cs := by
  induction cs with
  | nil => simp [spanDigits] at h
  | cons c cs' ih =>
    by_cases hc : c.isDigit = true
    · rw [show (spanDigits (c :: cs')).2 = (spanDigits cs').2 from by
        simp [spanDigits, hc]] at h
      exact List.mem_cons_of_mem _ (ih h)
    · rw [show (spanDigits (c :: cs')).2 = c :: cs' from by
        simp [spanDigits, hc]] at h
      exact h

theorem expectChar_eq (c : Char) (cs r : List Char)
    (h : expectChar c cs = some r) : cs = c :: r := by
  cases cs with
  | nil => exact absurd h (by simp [expectChar])
  | cons x xs =>
    simp only [expectChar] at h
    by_cases hx : (x == c) = true
    · rw [if_pos hx] at h
      cases h
      have hxc : x = c := by simpa using hx
      rw [hxc]
    · rw [if_neg hx] at h
      cases h

theorem tailMatch_dropSpaces_K (tl : List Char) (h : tailMatch tl = true) :
    ∃ ys, dropSpaces tl = 'K' :: ys := by
  unfold tailMatch at h
  rcases hK : expectChar 'K' (dropSpaces tl) with _ | r1
  · rw [hK] at h
    cases h
  · exact ⟨r1, expectChar_eq 'K' (dropSpaces tl) r1 hK⟩

theorem mem_K_of_tailMatch (tl : List Char) (h : tailMatch tl = true) :
    'K' ∈ tl := by
  obtain ⟨ys, hys⟩ := tailMatch_dropSpaces_K tl h
  exact mem_of_mem_dropSpaces tl 'K' (hys ▸ List.mem_cons_self _ _)

theorem tailMatch_head (tl : List Char) (h : tailMatch tl = true) :
    ∃ c cs, tl = c :: cs ∧ c.isDigit = false ∧ c ≠ '.' := by
  cases tl with
  | nil => exact absurd h (by decide)
  | cons c cs =>
    refine ⟨c, cs, rfl, ?_⟩
    by_cases hc : isPySpace c = true
    · have hmem : c ∈ [' ', '\t', '\n', '\r', '\x0b', '\x0c'] := by
        simp only [isPySpace, Bool.or_eq_true, beq_iff_eq] at hc
        simp only [List.mem_cons, List.not_mem_nil, or_false]
        tauto
      fin_cases hmem <;> exact ⟨by decide, by decide⟩
    · obtain ⟨ys, hys⟩ := tailMatch_dropSpaces_K _ h
      rw [show dropSpaces (c :: cs) = c :: cs from by
        simp [dropSpaces, hc]] at hys
      cases hys
      exact ⟨by decide, by decide⟩

theorem mem_of_mem_numGroup_snd (ds rest : List Char) (x : Char)
    (h : x ∈ (numGroup ds rest).2) : x ∈ rest := by
  cases rest with
  | nil => simp [numGroup] at h
  | cons c r2 =>
    by_cases hc : c = '.'
    · subst hc
      rcases hsp : spanDigits r2 with ⟨fs, r3⟩
      cases fs with
      | nil =>
        rw [show numGroup ds ('.' :: r2) = (ds, '.' :: r2) from by
          simp only [numGroup, if_true]
          rw [hsp]] at h
        exact h
      | cons f fs' =>
        rw [show numGroup ds ('.' :: r2) = (ds ++ '.' :: (f :: fs'), r3) from by
          simp only [numGroup, if_true]
          rw [hsp]] at h
        have hx : x ∈ (spanDigits r2).2 := by
          rw [hsp]
          exact h
        exact List.mem_cons_of_mem _ (mem_of_mem_spanDigits_snd r2 x hx)
    · rw [show numGroup ds (c :: r2) = (ds, c :: r2) from by
        simp only [numGroup]
        rw [if_neg hc]] at h
      exact h

theorem matchAt_some_K (cs g : List Char) (h : matchAt cs = some g) :
    'K' ∈ cs := by
  unfold matchAt at h
  rcases hsp : spanDigits cs with ⟨ds, rest⟩
  rw [hsp] at h
  cases ds with
  | nil => cases h
  | cons d ds' =>
    dsimp only at h
    by_cases ht : tailMatch (numGroup (d :: ds') rest).2 = true
    · have h1 := mem_K_of_tailMatch _ ht
      have h2 := mem_of_mem_numGroup_snd (d :: ds') rest 'K' h1
      have h3 : 'K' ∈ (spanDigits cs).2 := by
        rw [hsp]
        exact h2
      exact mem_of_mem_spanDigits_snd cs 'K' h3
    · rw [if_neg ht] at h
      cases h

theorem reSearch_some_K (cs g : List Char) (h : reSearch cs = some g) :
    'K' ∈ cs := by
  induction cs with
  | nil => cases h
  | cons c cs' ih =>
    unfold reSearch at h
    rcases hm : matchAt (c :: cs') with _ | g0
    · rw [hm] at h
      exact List.mem_cons_of_mem _ (ih h)
    · exact matchAt_some_K _ _ hm

/-- C7 counterexample: there is no ≥4-digit-run fallback in the code —
`"12345 people"` does not match the only pattern the parser knows, so it
raises instead of returning `12345`. -/
theorem digit_run_fallback_cex :
    parse_interested "12345 people" = none ∧
    parse_interested "12345 people" ≠ some 12345 := by
  decide

/-- C7 amended: `parse_interested` has no digit-run fallback at all — on
any input that contains no character uppercasing to `K` (so the
`K…ARE INTERESTED` pattern cannot match), it raises `ValueError`; in
particular `"12345 people"` fails rather than yielding `12345`. -/
theorem no_digit_run_fallback (s : String)
    (h : ∀ c ∈ s.data, c.toUpper ≠ 'K') :
    parse_interested s = none := by
  unfold parse_interested
  rcases hr : reSearch (preprocess s.data) with _ | g
  · rfl
  · exfalso
    have hK : 'K' ∈ preprocess s.data := reSearch_some_K _ _ hr
    unfold preprocess at hK
    rcases List.mem_map.mp hK with ⟨c, hc1, hc2⟩
    exact h c (List.mem_of_mem_filter hc1) hc2

/-- C7 witness: `"12345 people"` contains no `K`, so the parser fails on
it. -/
theorem no_digit_run_fallback_witness :
    (∀ c ∈ ("12345 people" : String).data, c.toUpper ≠ 'K') ∧
    parse_interested "12345 people" = none :=
  ⟨by decide, no_digit_run_fallback "12345 people" (by decide)⟩

theorem numGroup_nofrac (ds : List Char) (c : Char) (cs : List Char)
    (hc : c ≠ '.') : numGroup ds (c :: cs) = (ds, c :: cs) := by
  simp only [numGroup]
  rw [if_neg hc]

theorem numGroup_frac (ds fp : List Char) (c : Char) (cs : List Char)
    (hfp : fp ≠ []) (hfpd : ∀ x ∈ fp, x.isDigit = true)
    (hc : c.isDigit = false) :
    numGroup ds ('.' :: (fp ++ c :: cs)) = (ds ++ '.' :: fp, c :: cs) := by
  cases fp with
  | nil => exact absurd rfl hfp
  | cons f fp' =>
    simp only [numGroup, if_true]
    rw [spanDigits_append (f :: fp') c cs hfpd hc]

theorem matchAt_thousands (ip fp tl : List Char) (hip : ip ≠ [])
    (hipd : ∀ x ∈ ip, x.isDigit = true)
    (hfpd : ∀ x ∈ fp, x.isDigit = true)
    (htl : tailMatch tl = true) :
    matchAt (ip ++ (if fp.isEmpty then [] else '.' :: fp) ++ tl) =
      some (ip ++ (if fp.isEmpty then [] else '.' :: fp)) := by
  obtain ⟨c, cs, htl_eq, hcd, hcdot⟩ := tailMatch_head tl htl
  subst htl_eq
  cases fp with
  | nil =>
    simp only [List.isEmpty_nil, if_true, List.append_nil]
    unfold matchAt
    rw [spanDigits_append ip c cs hipd hcd]
    cases ip with
    | nil => exact absurd rfl hip
    | cons i ip' =>
      dsimp only
      rw [numGroup_nofrac (i :: ip') c cs hcdot]
      rw [if_pos htl]
  | cons f fp' =>
    simp only [List.isEmpty_cons, Bool.false_eq_true, if_false]
    have hassoc :
        ip ++ ('.' :: (f :: fp')) ++ (c :: cs) =
          ip ++ '.' :: ((f :: fp') ++ (c :: cs)) := by
      simp
    rw [hassoc]
    unfold matchAt
    rw [spanDigits_append ip '.' ((f :: fp') ++ (c :: cs)) hipd (by decide)]
    cases ip with
    | nil => exact absurd rfl hip
    | cons i ip' =>
      dsimp only
      rw [numGroup_frac (i :: ip') (f :: fp') c cs (by simp) hfpd hcd]
      rw [if_pos htl]

theorem reSearch_thousands (ip fp tl : List Char) (hip : ip ≠ [])
    (hipd : ∀ x ∈ ip, x.isDigit = true)
    (hfpd : ∀ x ∈ fp, x.isDigit = true)
    (htl : tailMatch tl = true) :
    reSearch (ip ++ (if fp.isEmpty then [] else '.' :: fp) ++ tl) =
      some (ip ++ (if fp.isEmpty then [] else '.' :: fp)) := by
  have hm := matchAt_thousands ip fp tl hip hipd hfpd htl
  cases ip with
  | nil => exact absurd rfl hip
  | cons i ip' =>
    simp only [List.cons_append] at hm ⊢
    unfold reSearch
    rw [hm]

theorem decScaled_group (ip fp : List Char)
    (hipd : ∀ x ∈ ip, x.isDigit = true)
    (hfpd : ∀ x ∈ fp, x.isDigit = true) :
    decScaled (ip ++ (if fp.isEmpty then [] else '.' :: fp)) =
      (digitsVal ip * 10 ^ fp.length + digitsVal fp, fp.length) := by
  cases fp with
  | nil =>
    simp only [List.isEmpty_nil, if_true, List.append_nil]
    unfold decScaled
    rw [spanDigits_all ip hipd]
    simp [digitsVal]
  | cons f fp' =>
    simp only [List.isEmpty_cons, Bool.false_eq_true, if_false]
    unfold decScaled
    rw [spanDigits_append ip '.' (f :: fp') hipd (by decide)]
    rfl

/-- C6 counterexample: the regex demands `ARE\s*INTERESTED` after the
`K`, so the bare `"1.2K"` the claim promises to normalize raises
`ValueError` instead of yielding `1200`. -/
theorem thousands_suffix_cex :
    parse_interested "1.2K" = none ∧ parse_interested "1.2K" ≠ some 1200 := by
  decide

/-- C6 amended: the thousands path applies only when the number and its
`K` are followed (after optional `+` and whitespace) by the words
"are interested"; on such inputs, for any nonempty digit run `ip`,
optional fraction digits `fp` and optional `+`, the input
`"<ip>[.<fp>]K[+] are interested"` parses to
`int(round(float("<ip>.<fp>") * 1000))` computed in IEEE-754 binary64 —
which on inputs such as `"8.0005K are interested"` differs from the
exact `round(num * 1000)` because of double rounding (`8001`, not
`8000`); `"64.6K+ are interested"` still yields `64600`, and a bare
`"<num>K"` raises instead. -/
theorem parse_interested_thousands (ip fp : List Char) (plus : Bool)
    (hip : ip ≠ []) (hipd : ∀ c ∈ ip, c ∈ digitChars)
    (hfpd : ∀ c ∈ fp, c ∈ digitChars) :
    parse_interested (String.mk (ip ++ (if fp.isEmpty then [] else '.' :: fp) ++
        ('K' :: ((if plus then ['+'] else []) ++ (' ' :: "are interested".data))))) =
      pyNum (digitsVal ip * 10 ^ fp.length + digitsVal fp) fp.length := by
  have hipd' : ∀ c ∈ ip, c.isDigit = true :=
    fun c hc => digit_char_isDigit (hipd c hc)
  have hfpd' : ∀ c ∈ fp, c.isDigit = true :=
    fun c hc => digit_char_isDigit (hfpd c hc)
  have hmid : preprocess (if fp.isEmpty then [] else '.' :: fp) =
      (if fp.isEmpty then [] else '.' :: fp) := by
    cases fp with
    | nil => rfl
    | cons f fp' =>
      simp only [List.isEmpty_cons, Bool.false_eq_true, if_false]
      rw [show ('.' :: (f :: fp') : List Char) = ['.'] ++ (f :: fp') from rfl]
      rw [preprocess_append, preprocess_digits (f :: fp') hfpd]
      rfl
  have htlpre :
      preprocess ('K' :: ((if plus then ['+'] else []) ++ (' ' :: "are interested".data))) =
        'K' :: ((if plus then ['+'] else []) ++ (' ' :: "ARE INTERESTED".data)) := by
    cases plus <;> decide
  have htm :
      tailMatch ('K' :: ((if plus then ['+'] else []) ++ (' ' :: "ARE INTERESTED".data))) =
        true := by
    cases plus <;> decide
  unfold parse_interested
  rw [show (String.mk (ip ++ (if fp.isEmpty then [] else '.' :: fp) ++
      ('K' :: ((if plus then ['+'] else []) ++ (' ' :: "are interested".data))))).data =
      ip ++ (if fp.isEmpty then [] else '.' :: fp) ++
      ('K' :: ((if plus then ['+'] else []) ++ (' ' :: "are interested".data))) from rfl]
  rw [preprocess_append, preprocess_append, preprocess_digits ip hipd, hmid, htlpre]
  rw [reSearch_thousands ip fp _ hip hipd' hfpd' htm]
  dsimp only [Option.bind]
  rw [decScaled_group ip fp hipd' hfpd']

set_option maxRecDepth 8000 in
/-- C6 witness: `"64.6K+ are interested"` parses to `64600`, and
`"8.0005K are interested"` parses to `8001` — the value the program's
IEEE-754 doubles produce (`float("8.0005")` lies strictly above
`8.0005`, and the multiply rounds up again to strictly above `8000.5`),
not the `8000` that exact half-to-even rounding of `8.0005 * 1000`
would give. -/
theorem parse_interested_thousands_witness :
    parse_interested (String.mk (['6', '4'] ++
        (if (['6'] : List Char).isEmpty then [] else '.' :: ['6']) ++
        ('K' :: ((if true then ['+'] else []) ++ (' ' :: "are interested".data))))) =
      some 64600 ∧
    parse_interested (String.mk (['8'] ++
        (if (['0', '0', '0', '5'] : List Char).isEmpty then []
         else '.' :: ['0', '0', '0', '5']) ++
        ('K' :: ((if false then ['+'] else []) ++ (' ' :: "are interested".data))))) =
      some 8001 :=
  ⟨(parse_interested_thousands ['6', '4'] ['6'] true (by decide) (by decide)
      (by decide)).trans (by decide),
   (parse_interested_thousands ['8'] ['0', '0', '0', '5'] false (by decide)
      (by decide) (by decide)).trans (by decide)⟩
